import Mathlib

/-!
Shallow embedding of the STEALTH `ns3::Node` registries (src/node.h, src/node.cc):
the protocol-handler registry, the neighbor directory and the attending-call
(service request) queue.  Addresses are modelled as naturals (value-comparable
identifiers), C++ `double` trust scores as rationals (the code only stores and
order-compares them), and the `std::vector` containers as Lean lists with
`push_back` as append at the tail.  Lookups that in C++ dereference a possibly
past-the-end iterator return `Option`, with `none` marking the out-of-range
dereference.
-/

namespace StealthNode

/-- Neighbor record (`struct Node::Neighbor`, node.h). -/
structure Neighbor where
  ip : Nat
  competence : String
  interests : List String
  trust : Rat
  around : Bool
deriving Repr, DecidableEq

/-- Attending record (`struct Node::Attending`, node.h). -/
structure Attending where
  ip : Nat
  criticalData : String
  attendingTime : Rat
  attendingPriority : Int
deriving Repr, DecidableEq

/-- Protocol handler entry (`struct Node::ProtocolHandlerEntry`, node.h).
The callback is modelled by an opaque numeric identity (handlers are compared
by identity in `UnregisterProtocolHandler`); the device pointer by an optional
device identifier (`none` models the null pointer wildcard). -/
structure ProtocolHandlerEntry where
  handler : Nat
  device : Option Nat
  protocol : Nat
  promiscuous : Bool
deriving Repr, DecidableEq

/-! ## Neighbor directory operations (node.cc) -/

/-- `Node::RegisterNeighbor` (node.cc:551): unconditional `push_back` of a
fresh record with `around = true`. -/
def RegisterNeighbor (l : List Neighbor) (ip : Nat) (competence : String)
    (interests : List String) (trust : Rat) : List Neighbor :=
  l ++ [⟨ip, competence, interests, trust, true⟩]

/-- `Node::GetNeighborIpList` (node.cc:577): addresses in directory order. -/
def GetNeighborIpList (l : List Neighbor) : List Nat :=
  l.map (fun n => n.ip)

/-- `Node::TurnOffLiveNeighbors` (node.cc:599): set `around = false` on every
record. -/
def TurnOffLiveNeighbors (l : List Neighbor) : List Neighbor :=
  l.map (fun n => { n with around := false })

/-- `Node::IsAlreadyNeighbor` (node.cc:755): linear scan with early exit once
a record with the address is seen. -/
def IsAlreadyNeighbor : List Neighbor → Nat → Bool
  | [], _ => false
  | n :: rest, ip => if n.ip == ip then true else IsAlreadyNeighbor rest ip

/-- The erase-first-match loop inside `Node::UnregisterNeighbor`
(node.cc:623-631): erase the first record with the address, then `break`. -/
def eraseFirstNeighbor : List Neighbor → Nat → List Neighbor
  | [], _ => []
  | n :: rest, ip => if n.ip == ip then rest else n :: eraseFirstNeighbor rest ip

/-- `Node::UnregisterNeighbor` (node.cc:617): guarded by `IsAlreadyNeighbor`,
then erases the first matching record. -/
def UnregisterNeighbor (l : List Neighbor) (ip : Nat) : List Neighbor :=
  if IsAlreadyNeighbor l ip then eraseFirstNeighbor l ip else l

/-- `Node::UnregisterOffNeighbors` (node.cc:644): the erase-in-place loop over
the vector; positionally, a record with `around = false` is removed and the
scan stays at the same position, otherwise the scan advances. -/
def UnregisterOffNeighbors : List Neighbor → List Neighbor
  | [] => []
  | n :: rest =>
    if n.around = false then UnregisterOffNeighbors rest
    else n :: UnregisterOffNeighbors rest

/-- `Node::TurnNeighborOn` (node.cc:667): set `around = true` on the first
record with the address, then `break`; no-op when absent. -/
def TurnNeighborOn : List Neighbor → Nat → List Neighbor
  | [], _ => []
  | n :: rest, ip =>
    if n.ip == ip then { n with around := true } :: rest
    else n :: TurnNeighborOn rest ip

/-- `Node::IsThereAnyNeighbor` (node.cc:690): `!m_neighborList.empty()`. -/
def IsThereAnyNeighbor (l : List Neighbor) : Bool :=
  !l.isEmpty

/-- The shared lookup loop of `IsAliveNeighbor` / `GetNeighborTrust` /
`GetNeighborCompetence` / `GetNeighborInterests` (node.cc:782-859): advance an
iterator until the first record with the address; the result is the iterator's
position, `l.length` (the `end()` iterator) when no record matches. -/
def neighborScanIndex : List Neighbor → Nat → Nat
  | [], _ => 0
  | n :: rest, ip => if n.ip == ip then 0 else 1 + neighborScanIndex rest ip

/-- `Node::IsAliveNeighbor` (node.cc:782): dereference the scan iterator and
read `around`; `none` models the dereference of `end()` when absent. -/
def IsAliveNeighbor (l : List Neighbor) (ip : Nat) : Option Bool :=
  (l[neighborScanIndex l ip]?).map (fun n => n.around)

/-- `Node::GetNeighborTrust` (node.cc:805). -/
def GetNeighborTrust (l : List Neighbor) (ip : Nat) : Option Rat :=
  (l[neighborScanIndex l ip]?).map (fun n => n.trust)

/-- `Node::GetNeighborCompetence` (node.cc:827). -/
def GetNeighborCompetence (l : List Neighbor) (ip : Nat) : Option String :=
  (l[neighborScanIndex l ip]?).map (fun n => n.competence)

/-- `Node::GetNeighborInterests` (node.cc:849). -/
def GetNeighborInterests (l : List Neighbor) (ip : Nat) : Option (List String) :=
  (l[neighborScanIndex l ip]?).map (fun n => n.interests)

/-! ## `Node::GetPlusTrustNeighbor` (node.cc:713-742)

The inner loop scans the whole directory and keeps the running best
`(trust, n)` pair, updating both (and the C++ `gotTrust` flag) exactly when a
record of the current competence has trust strictly above the running value;
since `gotTrust` is set exactly when `n` is set, `gotTrust` is modelled as
`n.isSome`, with `n = none` as the initial uninitialized iterator.
The outer loop counter `i` is a C++ `uint8_t`, so it advances modulo 256 and
is compared to the list size with `!=`; the loop is modelled with explicit
fuel, `none` meaning the fuel ran out before the loop exited.  An exit is
tagged `true` when the loop left through the exhaustion test `i != size`
failing and `false` when it left through the `gotTrust` break; the returned
`n->ip` dereference of a still-uninitialized iterator is modelled by `none`
in the inner option. -/

/-- The inner directory scan of `GetPlusTrustNeighbor` (node.cc:725-737). -/
def innerScan (c : String) : List Neighbor → Rat → Option Neighbor → Rat × Option Neighbor
  | [], t, n => (t, n)
  | r :: rest, t, n =>
    if r.competence == c then
      if t < r.trust then innerScan c rest r.trust (some r)
      else innerScan c rest t n
    else innerScan c rest t n

/-- The outer competence-tier loop of `GetPlusTrustNeighbor` (node.cc:722-740),
with the `uint8_t` counter `i` kept modulo 256 and explicit fuel. -/
def gptnLoop (cs : List String) (dir : List Neighbor) :
    Nat → Nat → Rat → Option Neighbor → Option (Bool × Option Nat)
  | 0, _, _, _ => none
  | fuel + 1, i, t, n =>
    if i = cs.length then some (true, n.map (fun r => r.ip))
    else
      if ((innerScan (cs.getD i "") dir t n).2).isSome then
        some (false, ((innerScan (cs.getD i "") dir t n).2).map (fun r => r.ip))
      else
        gptnLoop cs dir fuel ((i + 1) % 256)
          (innerScan (cs.getD i "") dir t n).1 (innerScan (cs.getD i "") dir t n).2

/-- `Node::GetPlusTrustNeighbor` (node.cc:713): run the tier loop from the
initial state `i = 0`, `trust = 0.0`, iterator uninitialized. -/
def GetPlusTrustNeighbor (cs : List String) (dir : List Neighbor) (fuel : Nat) :
    Option (Option Nat) :=
  (gptnLoop cs dir fuel 0 0 none).map (fun p => p.2)

/-- The tier loop rewritten as structural recursion on the competence list;
used to relate the fueled modular-counter loop (for lists short enough that
the `uint8_t` counter never wraps) to the specified selection. -/
def gptnGo (dir : List Neighbor) : List String → Rat → Option Neighbor → Option Nat
  | [], _, n => n.map (fun r => r.ip)
  | c :: rest, t, n =>
    if ((innerScan c dir t n).2).isSome then
      ((innerScan c dir t n).2).map (fun r => r.ip)
    else gptnGo dir rest (innerScan c dir t n).1 (innerScan c dir t n).2

/-- Specified from the spec's words for `BestTrustedByCompetencePriority`:
the maximum-trust record among the records of one competence, ties broken in
favour of the first-encountered (earliest-registered) record. -/
def argmaxTrust (c : String) : List Neighbor → Option Neighbor → Option Neighbor
  | [], best => best
  | r :: rest, best =>
    if r.competence == c then
      match best with
      | none => argmaxTrust c rest (some r)
      | some b =>
        if b.trust < r.trust then argmaxTrust c rest (some r)
        else argmaxTrust c rest (some b)
    else argmaxTrust c rest best

/-- Whether some record of competence `c` has trust strictly above zero. -/
def hasQualifying (c : String) (dir : List Neighbor) : Bool :=
  dir.any (fun r => r.competence == c && decide (0 < r.trust))

/-- Specified from the spec's words for `BestTrustedByCompetencePriority`:
walk the competence list in caller order and, at the first label that has a
record with trust strictly greater than 0, return the address of the
maximum-trust record of that label; labels after it are never considered. -/
def specBest (dir : List Neighbor) : List String → Option Nat
  | [] => none
  | c :: rest =>
    if hasQualifying c dir then (argmaxTrust c dir none).map (fun r => r.ip)
    else specBest dir rest

/-- The loop of `GetPlusTrustNeighbor` never exits, whatever the fuel: the
model of C++ non-termination. -/
def gptnNeverReturns (cs : List String) (dir : List Neighbor) : Prop :=
  ∀ fuel, GetPlusTrustNeighbor cs dir fuel = none

/-- Coupling invariant between the running state `(trust, n)` of the code's
inner scan and the running best of the specified maximum-trust selection:
while nothing with positive trust has been seen the code is still at
`(0, uninitialized)` and the specified best (if any) has non-positive trust;
afterwards both agree on one record with positive trust. -/
def scanInv : Rat → Option Neighbor → Option Neighbor → Prop
  | t, some r, best => t = r.trust ∧ best = some r ∧ 0 < t
  | t, none, best => t = 0 ∧ ∀ b, best = some b → b.trust ≤ 0

/-! ## Protocol handler registry (node.cc:256-361) -/

/-- `Node::RegisterProtocolHandler` (node.cc:256): `push_back` of the entry
(the promiscuous-mode side effect on devices is external to the registry). -/
def RegisterProtocolHandler (hs : List ProtocolHandlerEntry)
    (e : ProtocolHandlerEntry) : List ProtocolHandlerEntry :=
  hs ++ [e]

/-- `Node::UnregisterProtocolHandler` (node.cc:290): erase the first entry
whose handler matches by identity, then `break`; no-op when absent. -/
def UnregisterProtocolHandler : List ProtocolHandlerEntry → Nat → List ProtocolHandlerEntry
  | [], _ => []
  | e :: rest, h =>
    if e.handler == h then rest else e :: UnregisterProtocolHandler rest h

/-- The match condition of the dispatch loop (node.cc:346-352): device filter
null-or-equal, protocol filter zero-or-equal, promiscuous flags equal. -/
def entryMatches (e : ProtocolHandlerEntry) (device : Nat) (protocol : Nat)
    (promiscuous : Bool) : Bool :=
  (e.device == none || (!(e.device == none) && e.device == some device)) &&
    (e.protocol == 0 || e.protocol == protocol) &&
    (promiscuous == e.promiscuous)

/-- `Node::ReceiveFromDevice` (node.cc:330): invoke every matching entry in
registry order and report whether any was invoked.  The result records the
invoked entries in invocation order together with the returned `found` flag. -/
def ReceiveFromDevice : List ProtocolHandlerEntry → Nat → Nat → Bool →
    List ProtocolHandlerEntry × Bool
  | [], _, _, _ => ([], false)
  | e :: rest, device, protocol, promiscuous =>
    let r := ReceiveFromDevice rest device protocol promiscuous
    if entryMatches e device protocol promiscuous then (e :: r.1, true)
    else (r.1, r.2)

/-- A handler-registry call: registration or unregistration by identity. -/
inductive HandlerOp where
  | reg (e : ProtocolHandlerEntry)
  | unreg (h : Nat)

/-- Apply one handler-registry call. -/
def applyHandlerOp (hs : List ProtocolHandlerEntry) : HandlerOp → List ProtocolHandlerEntry
  | HandlerOp.reg e => RegisterProtocolHandler hs e
  | HandlerOp.unreg h => UnregisterProtocolHandler hs h

/-- Run a sequence of handler-registry calls from the empty registry. -/
def runHandlerOps (ops : List HandlerOp) : List ProtocolHandlerEntry :=
  ops.foldl applyHandlerOp []

/-! ## Attending-call (service request) queue (node.cc:921-976) -/

/-- `Node::RegisterAttendingCall` (node.cc:921): unconditional `push_back`. -/
def RegisterAttendingCall (l : List Attending) (ip : Nat) (criticalData : String)
    (priority : Int) (attendingCallTime : Rat) : List Attending :=
  l ++ [⟨ip, criticalData, attendingCallTime, priority⟩]

/-- `Node::GetNPendingAttending` (node.cc:945): the queue length. -/
def GetNPendingAttending (l : List Attending) : Nat :=
  l.length

/-- The erase-first-match loop inside `Node::CloseAttending`
(node.cc:966-974). -/
def eraseFirstAttending : List Attending → Nat → List Attending
  | [], _ => []
  | a :: rest, ip => if a.ip == ip then rest else a :: eraseFirstAttending rest ip

/-- `Node::CloseAttending` (node.cc:960): guarded by a non-empty check, then
erases the first record with the address; no-op when absent. -/
def CloseAttending (l : List Attending) (ip : Nat) : List Attending :=
  if GetNPendingAttending l ≠ 0 then eraseFirstAttending l ip else l

/-! ## Neighbor-directory call sequences -/

/-- A neighbor-directory call. -/
inductive DirOp where
  | register (ip : Nat) (competence : String) (interests : List String) (trust : Rat)
  | unregister (ip : Nat)
  | turnOffLive
  | unregisterOff
  | turnOn (ip : Nat)

/-- Apply one neighbor-directory call. -/
def applyDirOp (l : List Neighbor) : DirOp → List Neighbor
  | DirOp.register ip c ints t => RegisterNeighbor l ip c ints t
  | DirOp.unregister ip => UnregisterNeighbor l ip
  | DirOp.turnOffLive => TurnOffLiveNeighbors l
  | DirOp.unregisterOff => UnregisterOffNeighbors l
  | DirOp.turnOn ip => TurnNeighborOn l ip

/-- Run a sequence of neighbor-directory calls from the empty directory. -/
def runDirOps (ops : List DirOp) : List Neighbor :=
  ops.foldl applyDirOp []

/-- A call sequence is register-guarded when every registration is for an
address not present in the directory at the moment of the call. -/
def guardedOps : List DirOp → List Neighbor → Bool
  | [], _ => true
  | op :: rest, l =>
    (match op with
     | DirOp.register ip _ _ _ => !IsAlreadyNeighbor l ip
     | _ => true) && guardedOps rest (applyDirOp l op)

/-- Number of records carrying a given address. -/
def countIp (l : List Neighbor) (ip : Nat) : Nat :=
  (l.filter (fun n => n.ip == ip)).length

/-! ## Helper lemmas -/

theorem unregisterOff_eq_filter (l : List Neighbor) :
    UnregisterOffNeighbors l = l.filter (fun n => n.around) := by
  induction l with
  | nil => rfl
  | cons n rest ih =>
    by_cases h : n.around
    · simp [UnregisterOffNeighbors, h, ih, List.filter_cons]
    · simp [UnregisterOffNeighbors, h, ih, List.filter_cons]

theorem turnOffLive_all_stale (l : List Neighbor) :
    UnregisterOffNeighbors (TurnOffLiveNeighbors l) = [] := by
  induction l with
  | nil => rfl
  | cons n rest ih => simpa [TurnOffLiveNeighbors, UnregisterOffNeighbors] using ih

theorem unregisterHandler_noop (hs : List ProtocolHandlerEntry) (h : Nat)
    (hh : (hs.all fun e => !(e.handler == h)) = true) :
    UnregisterProtocolHandler hs h = hs := by
  induction hs with
  | nil => rfl
  | cons e rest ih =>
    simp only [List.all_cons, Bool.and_eq_true, Bool.not_eq_true'] at hh
    simp [UnregisterProtocolHandler, hh.1, ih hh.2]

theorem receiveFromDevice_eq_filter (hs : List ProtocolHandlerEntry)
    (device protocol : Nat) (promiscuous : Bool) :
    ReceiveFromDevice hs device protocol promiscuous =
      (hs.filter (fun e => entryMatches e device protocol promiscuous),
       hs.any (fun e => entryMatches e device protocol promiscuous)) := by
  induction hs with
  | nil => rfl
  | cons e rest ih =>
    by_cases h : entryMatches e device protocol promiscuous
    · simp [ReceiveFromDevice, h, ih, List.filter_cons, List.any_cons]
    · simp [ReceiveFromDevice, h, ih, List.filter_cons, List.any_cons]

theorem eraseFirstAttending_split (l₁ l₂ : List Attending) (a : Attending) (ip : Nat)
    (h₁ : ∀ x ∈ l₁, x.ip ≠ ip) (ha : a.ip = ip) :
    eraseFirstAttending (l₁ ++ a :: l₂) ip = l₁ ++ l₂ := by
  induction l₁ with
  | nil => simp [eraseFirstAttending, ha]
  | cons x rest ih =>
    have hx : x.ip ≠ ip := h₁ x (List.mem_cons_self x rest)
    have hx' : (x.ip == ip) = false := by simpa using hx
    simp only [List.cons_append, eraseFirstAttending, hx', if_false]
    exact congrArg (x :: ·) (ih fun y hy => h₁ y (List.mem_cons_of_mem x hy))

theorem eraseFirstAttending_noop (l : List Attending) (ip : Nat)
    (h : ∀ x ∈ l, x.ip ≠ ip) :
    eraseFirstAttending l ip = l := by
  induction l with
  | nil => rfl
  | cons x rest ih =>
    have hx : (x.ip == ip) = false := by simpa using h x (List.mem_cons_self x rest)
    simp [eraseFirstAttending, hx, ih fun y hy => h y (List.mem_cons_of_mem x hy)]

/-! ## Claim C4 -/

/-- C4: `UnregisterOffNeighbors` deletes exactly the records whose `around`
flag is false, keeping the remaining records in order (it equals the filter by
`around`); after `TurnOffLiveNeighbors` with no confirmations it empties the
directory and `IsThereAnyNeighbor` returns false. -/
theorem unregister_off_filter_C4 (l : List Neighbor) :
    UnregisterOffNeighbors l = l.filter (fun n => n.around) ∧
    UnregisterOffNeighbors (TurnOffLiveNeighbors l) = [] ∧
    IsThereAnyNeighbor (UnregisterOffNeighbors (TurnOffLiveNeighbors l)) = false := by
  refine ⟨unregisterOff_eq_filter l, turnOffLive_all_stale l, ?_⟩
  rw [turnOffLive_all_stale l]
  rfl

/-! ## Claim C9 -/

/-- C9: `UnregisterNeighbor` of an absent address leaves the directory (and
its address snapshot) unchanged, and `UnregisterProtocolHandler` of a handler
with no matching entry leaves the handler registry unchanged: both are
error-free no-ops. -/
theorem benign_absence_noop_C9 (l : List Neighbor) (ip : Nat)
    (hs : List ProtocolHandlerEntry) (h : Nat) :
    (IsAlreadyNeighbor l ip = false →
      UnregisterNeighbor l ip = l ∧
      GetNeighborIpList (UnregisterNeighbor l ip) = GetNeighborIpList l) ∧
    ((hs.all fun e => !(e.handler == h)) = true →
      UnregisterProtocolHandler hs h = hs) := by
  constructor
  · intro habs
    have : UnregisterNeighbor l ip = l := by simp [UnregisterNeighbor, habs]
    exact ⟨this, by rw [this]⟩
  · exact unregisterHandler_noop hs h

/-- Witness for C9 at a concrete directory and registry. -/
theorem benign_absence_noop_C9_witness :
    UnregisterNeighbor [⟨3, "nurse", [], 1, true⟩] 4 = [⟨3, "nurse", [], 1, true⟩] ∧
    UnregisterProtocolHandler [⟨1, none, 0, false⟩] 2 = [⟨1, none, 0, false⟩] :=
  ⟨((benign_absence_noop_C9 [⟨3, "nurse", [], 1, true⟩] 4 [] 0).1 (by rfl)).1,
   (benign_absence_noop_C9 [] 0 [⟨1, none, 0, false⟩] 2).2 (by rfl)⟩

/-! ## Claim C2 -/

/-- C2: on every registry state reached by register/unregister sequences, a
dispatch invokes exactly the entries whose device filter is null-or-equal,
whose protocol filter is zero-or-equal and whose promiscuous flag equals the
dispatch mode, in registration order and without short-circuiting, and returns
true iff at least one entry was invoked; on the empty registry it invokes
nothing and returns false. -/
theorem dispatch_filter_C2 (ops : List HandlerOp) (device protocol : Nat)
    (promiscuous : Bool) :
    ReceiveFromDevice (runHandlerOps ops) device protocol promiscuous =
      ((runHandlerOps ops).filter (fun e => entryMatches e device protocol promiscuous),
       (runHandlerOps ops).any (fun e => entryMatches e device protocol promiscuous)) ∧
    ReceiveFromDevice [] device protocol promiscuous = ([], false) :=
  ⟨receiveFromDevice_eq_filter _ device protocol promiscuous, rfl⟩

/-! ## Claim C8 -/

/-- C8: `RegisterAttendingCall` grows the pending count by exactly one;
`CloseAttending` removes the first record matching the address when one exists
(shrinking the count by exactly one), is a no-op when no record matches, and
an open/close/close sequence on the empty queue ends with the empty queue. -/
theorem attending_open_close_C8 (l l₁ l₂ : List Attending) (a : Attending)
    (ip : Nat) (cd : String) (p : Int) (t : Rat) :
    GetNPendingAttending (RegisterAttendingCall l ip cd p t) =
      GetNPendingAttending l + 1 ∧
    ((∀ x ∈ l₁, x.ip ≠ ip) → a.ip = ip →
      CloseAttending (l₁ ++ a :: l₂) ip = l₁ ++ l₂ ∧
      GetNPendingAttending (CloseAttending (l₁ ++ a :: l₂) ip) + 1 =
        GetNPendingAttending (l₁ ++ a :: l₂)) ∧
    ((∀ x ∈ l, x.ip ≠ ip) → CloseAttending l ip = l) ∧
    CloseAttending (CloseAttending (RegisterAttendingCall [] ip cd p t) ip) ip = [] ∧
    GetNPendingAttending
      (CloseAttending (CloseAttending (RegisterAttendingCall [] ip cd p t) ip) ip) = 0 := by
  refine ⟨by simp [GetNPendingAttending, RegisterAttendingCall], ?_, ?_, ?_, ?_⟩
  · intro h₁ ha
    have hne : GetNPendingAttending (l₁ ++ a :: l₂) ≠ 0 := by
      simp [GetNPendingAttending]
    have herase := eraseFirstAttending_split l₁ l₂ a ip h₁ ha
    have hclose : CloseAttending (l₁ ++ a :: l₂) ip = l₁ ++ l₂ := by
      simp [CloseAttending, hne, herase]
    refine ⟨hclose, ?_⟩
    rw [hclose]
    simp [GetNPendingAttending]
    omega
  · intro h
    by_cases hl : GetNPendingAttending l ≠ 0
    · simp [CloseAttending, hl, eraseFirstAttending_noop l ip h]
    · simp [CloseAttending, hl]
  · have h1 : CloseAttending (RegisterAttendingCall [] ip cd p t) ip = [] := by
      simp [CloseAttending, RegisterAttendingCall, GetNPendingAttending,
        eraseFirstAttending]
    rw [h1]
    rfl
  · have h1 : CloseAttending (RegisterAttendingCall [] ip cd p t) ip = [] := by
      simp [CloseAttending, RegisterAttendingCall, GetNPendingAttending,
        eraseFirstAttending]
    rw [h1]
    rfl

/-- Witness for C8 at a concrete open/close scenario. -/
theorem attending_open_close_C8_witness :
    CloseAttending [⟨5, "InfoA", 0, 1⟩] 5 = [] ∧
    CloseAttending (CloseAttending (RegisterAttendingCall [] 5 "InfoA" 1 0) 5) 5 = [] := by
  have h := attending_open_close_C8 [] [] [] ⟨5, "InfoA", 0, 1⟩ 5 "InfoA" 1 0
  exact ⟨(h.2.1 (by simp) (by rfl)).1, h.2.2.2.1⟩

/-! ## Lookup-scan helper lemmas -/

theorem scan_get_eq_find (l : List Neighbor) (ip : Nat) :
    l[neighborScanIndex l ip]? = l.find? (fun n => n.ip == ip) := by
  induction l with
  | nil => rfl
  | cons n rest ih =>
    by_cases h : (n.ip == ip) = true
    · simp [neighborScanIndex, h, List.find?_cons_of_pos]
    · have h' : (n.ip == ip) = false := by simpa using h
      rw [List.find?_cons_of_neg _ (by simp [h'])]
      simp only [neighborScanIndex, h']
      rw [if_neg (by simp), Nat.add_comm 1, List.getElem?_cons_succ]
      exact ih

theorem scanIndex_lt_of_already (l : List Neighbor) (ip : Nat)
    (h : IsAlreadyNeighbor l ip = true) :
    neighborScanIndex l ip < l.length := by
  induction l with
  | nil => exact absurd h (by simp [IsAlreadyNeighbor])
  | cons n rest ih =>
    by_cases hn : (n.ip == ip) = true
    · simp [neighborScanIndex, hn]
    · have h' : (n.ip == ip) = false := by simpa using hn
      have hrest : IsAlreadyNeighbor rest ip = true := by
        simpa [IsAlreadyNeighbor, h'] using h
      have hres := ih hrest
      simp only [neighborScanIndex, h', List.length_cons]
      rw [if_neg (by simp)]
      omega

theorem find?_none_of_not_already (l : List Neighbor) (ip : Nat)
    (h : IsAlreadyNeighbor l ip = false) :
    l.find? (fun n => n.ip == ip) = none := by
  induction l with
  | nil => rfl
  | cons n rest ih =>
    have hn : (n.ip == ip) = false := by
      by_contra hc
      simp only [Bool.not_eq_false] at hc
      simp [IsAlreadyNeighbor, hc] at h
    have hrest : IsAlreadyNeighbor rest ip = false := by
      simpa [IsAlreadyNeighbor, hn] using h
    rw [List.find?_cons_of_neg _ (by simp [hn])]
    exact ih hrest

/-! ## Claim C6 -/

/-- C6: under the precondition `IsAlreadyNeighbor`, the scan iterator of the
four address lookups stays strictly inside the directory (the past-the-end
dereference is unreachable) and each lookup returns the corresponding field of
the first record whose address matches. -/
theorem neighbor_lookup_first_match_C6 (l : List Neighbor) (ip : Nat)
    (h : IsAlreadyNeighbor l ip = true) :
    neighborScanIndex l ip < l.length ∧
    ∃ r, l.find? (fun n => n.ip == ip) = some r ∧
      IsAliveNeighbor l ip = some r.around ∧
      GetNeighborTrust l ip = some r.trust ∧
      GetNeighborCompetence l ip = some r.competence ∧
      GetNeighborInterests l ip = some r.interests := by
  have hlt := scanIndex_lt_of_already l ip h
  have hget := scan_get_eq_find l ip
  have hsome : (l[neighborScanIndex l ip]?).isSome := by
    rw [List.getElem?_eq_getElem hlt]
    rfl
  obtain ⟨r, hr⟩ := Option.isSome_iff_exists.mp hsome
  refine ⟨hlt, r, by rw [← hget]; exact hr, ?_, ?_, ?_, ?_⟩ <;>
    simp only [IsAliveNeighbor, GetNeighborTrust, GetNeighborCompetence,
      GetNeighborInterests, hr, Option.map_some']

/-- Witness for C6 at a concrete directory. -/
theorem neighbor_lookup_first_match_C6_witness :
    neighborScanIndex [⟨5, "nurse", ["vitals"], 1, true⟩] 5 <
      [(⟨5, "nurse", ["vitals"], 1, true⟩ : Neighbor)].length :=
  (neighbor_lookup_first_match_C6 [⟨5, "nurse", ["vitals"], 1, true⟩] 5 (by rfl)).1

/-! ## Claim C7 -/

theorem find?_register (l : List Neighbor) (ip : Nat) (c : String)
    (ints : List String) (t : Rat) (h : IsAlreadyNeighbor l ip = false) :
    (RegisterNeighbor l ip c ints t).find? (fun n => n.ip == ip) =
      some ⟨ip, c, ints, t, true⟩ := by
  induction l with
  | nil =>
    simp only [RegisterNeighbor, List.nil_append]
    exact List.find?_cons_of_pos _ (by simp)
  | cons n rest ih =>
    have hn : (n.ip == ip) = false := by
      by_contra hc
      simp only [Bool.not_eq_false] at hc
      simp [IsAlreadyNeighbor, hc] at h
    have hrest : IsAlreadyNeighbor rest ip = false := by
      simpa [IsAlreadyNeighbor, hn] using h
    simp only [RegisterNeighbor, List.cons_append]
    rw [List.find?_cons_of_neg _ (by simp [hn])]
    exact ih hrest

/-- C7: registering an absent address round-trips: the competence, interests
and trust lookups return the registered values, and the fresh record is alive
(`around = true`). -/
theorem register_roundtrip_C7 (l : List Neighbor) (ip : Nat) (c : String)
    (ints : List String) (t : Rat) (h : IsAlreadyNeighbor l ip = false) :
    GetNeighborCompetence (RegisterNeighbor l ip c ints t) ip = some c ∧
    GetNeighborInterests (RegisterNeighbor l ip c ints t) ip = some ints ∧
    GetNeighborTrust (RegisterNeighbor l ip c ints t) ip = some t ∧
    IsAliveNeighbor (RegisterNeighbor l ip c ints t) ip = some true := by
  have hfind := find?_register l ip c ints t h
  have hget := scan_get_eq_find (RegisterNeighbor l ip c ints t) ip
  rw [hfind] at hget
  refine ⟨?_, ?_, ?_, ?_⟩ <;>
    simp only [GetNeighborCompetence, GetNeighborInterests, GetNeighborTrust,
      IsAliveNeighbor, hget, Option.map_some']

/-- Witness for C7: the spec's round-trip example. -/
theorem register_roundtrip_C7_witness :
    GetNeighborCompetence (RegisterNeighbor [] 3 "nurse" ["vitals"] (7 / 10)) 3 =
      some "nurse" ∧
    GetNeighborInterests (RegisterNeighbor [] 3 "nurse" ["vitals"] (7 / 10)) 3 =
      some ["vitals"] ∧
    GetNeighborTrust (RegisterNeighbor [] 3 "nurse" ["vitals"] (7 / 10)) 3 =
      some (7 / 10) ∧
    IsAliveNeighbor (RegisterNeighbor [] 3 "nurse" ["vitals"] (7 / 10)) 3 =
      some true :=
  register_roundtrip_C7 [] 3 "nurse" ["vitals"] (7 / 10) (by rfl)

/-! ## Claim C3 -/

theorem find?_turnOff (l : List Neighbor) (x : Nat) :
    (TurnOffLiveNeighbors l).find? (fun n => n.ip == x) =
      (l.find? (fun n => n.ip == x)).map (fun r => { r with around := false }) := by
  induction l with
  | nil => rfl
  | cons n rest ih =>
    by_cases hn : (n.ip == x) = true
    · simp [TurnOffLiveNeighbors, List.find?, hn]
    · have hn' : (n.ip == x) = false := by simpa using hn
      simpa [TurnOffLiveNeighbors, List.find?, hn'] using ih

theorem find?_turnOn (l : List Neighbor) (ip x : Nat) :
    (TurnNeighborOn l ip).find? (fun n => n.ip == x) =
      (l.find? (fun n => n.ip == x)).map
        (fun r => if x = ip then { r with around := true } else r) := by
  induction l with
  | nil => rfl
  | cons n rest ih =>
    by_cases hip : (n.ip == ip) = true
    · have hipeq : n.ip = ip := by simpa using hip
      simp only [TurnNeighborOn, hip, if_true]
      by_cases hx : (n.ip == x) = true
      · have hxeq : n.ip = x := by simpa using hx
        have hxip : x = ip := hxeq ▸ hipeq
        simp [List.find?, hx, hxip, hip]
      · have hx' : (n.ip == x) = false := by simpa using hx
        have hxip : ¬(x = ip) := fun hc => by simp [hipeq, hc] at hx'
        simp only [List.find?, hx']
        simp [hxip, Option.map_id']
    · have hip' : (n.ip == ip) = false := by simpa using hip
      simp only [TurnNeighborOn, hip', if_false]
      by_cases hx : (n.ip == x) = true
      · have hxeq : n.ip = x := by simpa using hx
        have hxip : ¬(x = ip) := fun hc => by simp [hxeq, hc] at hip'
        simp [List.find?, hx, hxip]
      · have hx' : (n.ip == x) = false := by simpa using hx
        simpa [List.find?, hx'] using ih

theorem find?_foldl_turnOn (S : List Nat) :
    ∀ (l : List Neighbor) (x : Nat) (r : Neighbor),
      l.find? (fun n => n.ip == x) = some r →
      (S.foldl TurnNeighborOn l).find? (fun n => n.ip == x) =
        some { r with around := r.around || decide (x ∈ S) } := by
  induction S with
  | nil =>
    intro l x r hr
    simpa [Bool.or_false] using hr
  | cons a S' ih =>
    intro l x r hr
    have hstep := find?_turnOn l a x
    rw [hr] at hstep
    by_cases hxa : x = a
    · have h2 := ih (TurnNeighborOn l a) x { r with around := true }
        (by rw [hstep]; simp [hxa])
      rw [List.foldl_cons, h2]
      simp [hxa]
    · have h2 := ih (TurnNeighborOn l a) x r (by rw [hstep]; simp [hxa])
      rw [List.foldl_cons, h2]
      simp [List.mem_cons, hxa]

/-- C3: after marking every neighbor stale and confirming presence for exactly
the addresses in `S`, a previously registered address is alive iff it belongs
to `S`. -/
theorem stale_confirm_alive_C3 (l : List Neighbor) (S : List Nat) (x : Nat)
    (h : IsAlreadyNeighbor l x = true) :
    IsAliveNeighbor (S.foldl TurnNeighborOn (TurnOffLiveNeighbors l)) x =
      some (decide (x ∈ S)) := by
  have hlt := scanIndex_lt_of_already l x h
  have hget := scan_get_eq_find l x
  have hsome : (l[neighborScanIndex l x]?).isSome := by
    rw [List.getElem?_eq_getElem hlt]
    rfl
  obtain ⟨r, hr⟩ := Option.isSome_iff_exists.mp hsome
  have hfind : l.find? (fun n => n.ip == x) = some r := by rw [← hget]; exact hr
  have hoff : (TurnOffLiveNeighbors l).find? (fun n => n.ip == x) =
      some { r with around := false } := by
    rw [find?_turnOff l x, hfind]
    rfl
  have hfold := find?_foldl_turnOn S (TurnOffLiveNeighbors l) x
    { r with around := false } hoff
  have hgetF := scan_get_eq_find (S.foldl TurnNeighborOn (TurnOffLiveNeighbors l)) x
  rw [hfold] at hgetF
  simp only [IsAliveNeighbor, hgetF, Option.map_some', Bool.false_or]

/-- Witness for C3: two registered neighbors, only the second confirmed. -/
theorem stale_confirm_alive_C3_witness :
    IsAliveNeighbor
      ([2].foldl TurnNeighborOn
        (TurnOffLiveNeighbors [⟨1, "a", [], 1, true⟩, ⟨2, "b", [], 1, true⟩])) 2 =
      some true := by
  have h := stale_confirm_alive_C3 [⟨1, "a", [], 1, true⟩, ⟨2, "b", [], 1, true⟩]
    [2] 2 (by rfl)
  rw [h]
  rfl

/-! ## Claim C5 -/

theorem countIp_register (l : List Neighbor) (ip' : Nat) (c : String)
    (ints : List String) (t : Rat) (x : Nat) :
    countIp (RegisterNeighbor l ip' c ints t) x =
      countIp l x + (if ip' == x then 1 else 0) := by
  by_cases h : (ip' == x) = true
  · simp [countIp, RegisterNeighbor, List.filter_append, h]
  · have h' : (ip' == x) = false := by simpa using h
    simp [countIp, RegisterNeighbor, List.filter_append, h']

theorem countIp_zero_of_not_already (l : List Neighbor) (x : Nat)
    (h : IsAlreadyNeighbor l x = false) : countIp l x = 0 := by
  induction l with
  | nil => rfl
  | cons n rest ih =>
    have hn : (n.ip == x) = false := by
      by_contra hc
      simp only [Bool.not_eq_false] at hc
      simp [IsAlreadyNeighbor, hc] at h
    have hrest : IsAlreadyNeighbor rest x = false := by
      simpa [IsAlreadyNeighbor, hn] using h
    simp [countIp, List.filter_cons, hn]
    simpa [countIp] using ih hrest

theorem countIp_eraseFirst_le (l : List Neighbor) (ip' x : Nat) :
    countIp (eraseFirstNeighbor l ip') x ≤ countIp l x := by
  induction l with
  | nil => exact Nat.le_refl _
  | cons n rest ih =>
    by_cases h : (n.ip == ip') = true
    · simp only [eraseFirstNeighbor, h, if_true]
      by_cases hx : (n.ip == x) = true
      · simp [countIp, List.filter_cons, hx]
      · have hx' : (n.ip == x) = false := by simpa using hx
        simp [countIp, List.filter_cons, hx']
    · have h' : (n.ip == ip') = false := by simpa using h
      by_cases hx : (n.ip == x) = true
      · simpa [eraseFirstNeighbor, h', countIp, List.filter_cons, hx] using ih
      · have hx' : (n.ip == x) = false := by simpa using hx
        simpa [eraseFirstNeighbor, h', countIp, List.filter_cons, hx'] using ih

theorem countIp_unregister_le (l : List Neighbor) (ip' x : Nat) :
    countIp (UnregisterNeighbor l ip') x ≤ countIp l x := by
  by_cases h : IsAlreadyNeighbor l ip'
  · simpa [UnregisterNeighbor, h] using countIp_eraseFirst_le l ip' x
  · simp [UnregisterNeighbor, h]

theorem countIp_turnOff (l : List Neighbor) (x : Nat) :
    countIp (TurnOffLiveNeighbors l) x = countIp l x := by
  induction l with
  | nil => rfl
  | cons n rest ih =>
    by_cases hx : (n.ip == x) = true
    · simpa [TurnOffLiveNeighbors, countIp, List.filter_cons, hx] using ih
    · have hx' : (n.ip == x) = false := by simpa using hx
      simpa [TurnOffLiveNeighbors, countIp, List.filter_cons, hx'] using ih

theorem countIp_unregisterOff_le (l : List Neighbor) (x : Nat) :
    countIp (UnregisterOffNeighbors l) x ≤ countIp l x := by
  induction l with
  | nil => exact Nat.le_refl _
  | cons n rest ih =>
    by_cases h : n.around = false
    · simp only [UnregisterOffNeighbors, h, if_true]
      refine Nat.le_trans ih ?_
      by_cases hx : (n.ip == x) = true
      · simp [countIp, List.filter_cons, hx]
      · have hx' : (n.ip == x) = false := by simpa using hx
        simp [countIp, List.filter_cons, hx']
    · by_cases hx : (n.ip == x) = true
      · simpa [UnregisterOffNeighbors, h, countIp, List.filter_cons, hx] using ih
      · have hx' : (n.ip == x) = false := by simpa using hx
        simpa [UnregisterOffNeighbors, h, countIp, List.filter_cons, hx'] using ih

theorem countIp_turnOn (l : List Neighbor) (ip' x : Nat) :
    countIp (TurnNeighborOn l ip') x = countIp l x := by
  induction l with
  | nil => rfl
  | cons n rest ih =>
    by_cases h : (n.ip == ip') = true
    · by_cases hx : (n.ip == x) = true
      · simp [TurnNeighborOn, h, countIp, List.filter_cons, hx]
      · have hx' : (n.ip == x) = false := by simpa using hx
        simp [TurnNeighborOn, h, countIp, List.filter_cons, hx']
    · have h' : (n.ip == ip') = false := by simpa using h
      by_cases hx : (n.ip == x) = true
      · simpa [TurnNeighborOn, h', countIp, List.filter_cons, hx] using ih
      · have hx' : (n.ip == x) = false := by simpa using hx
        simpa [TurnNeighborOn, h', countIp, List.filter_cons, hx'] using ih

theorem guarded_foldl_unique (ops : List DirOp) :
    ∀ l, (∀ x, countIp l x ≤ 1) → guardedOps ops l = true →
      ∀ x, countIp (ops.foldl applyDirOp l) x ≤ 1 := by
  induction ops with
  | nil => intro l hl _ x; exact hl x
  | cons op rest ih =>
    intro l hl hg x
    simp only [guardedOps, Bool.and_eq_true] at hg
    refine ih (applyDirOp l op) ?_ hg.2 x
    intro y
    cases op with
    | register ip' c ints t =>
      have habs : IsAlreadyNeighbor l ip' = false := by
        simpa using hg.1
      rw [show applyDirOp l (DirOp.register ip' c ints t) =
        RegisterNeighbor l ip' c ints t from rfl, countIp_register]
      by_cases hy : (ip' == y) = true
      · have : ip' = y := by simpa using hy
        rw [countIp_zero_of_not_already l y (this ▸ habs)]
        simp [hy]
      · have hy' : (ip' == y) = false := by simpa using hy
        simpa [hy'] using hl y
    | unregister ip' => exact Nat.le_trans (countIp_unregister_le l ip' y) (hl y)
    | turnOffLive => exact Nat.le_of_eq (countIp_turnOff l y) |>.trans (hl y)
    | unregisterOff => exact Nat.le_trans (countIp_unregisterOff_le l y) (hl y)
    | turnOn ip' => exact Nat.le_of_eq (countIp_turnOn l ip' y) |>.trans (hl y)

/-- C5 (amended): in every directory state reached by a register-guarded call
sequence (every `RegisterNeighbor` is for an address not present at the time
of the call), the directory holds at most one record per address. -/
theorem guarded_register_unique_C5 (ops : List DirOp)
    (h : guardedOps ops [] = true) (ip : Nat) :
    countIp (runDirOps ops) ip ≤ 1 :=
  guarded_foldl_unique ops [] (fun _ => Nat.zero_le 1) h ip

/-- Counterexample to C5 as stated: two unguarded `RegisterNeighbor` calls for
the same address reach a directory with two records for that address. -/
theorem register_duplicate_C5_counterexample :
    countIp (runDirOps
      [DirOp.register 1 "doctor" [] 1, DirOp.register 1 "doctor" [] 1]) 1 = 2 ∧
    ¬(countIp (runDirOps
      [DirOp.register 1 "doctor" [] 1, DirOp.register 1 "doctor" [] 1]) 1 ≤ 1) := by
  constructor
  · rfl
  · decide

/-- Witness for the amended C5 at a concrete guarded call sequence. -/
theorem guarded_register_unique_C5_witness :
    countIp (runDirOps
      [DirOp.register 1 "doctor" [] 1, DirOp.register 2 "nurse" [] 1]) 1 ≤ 1 :=
  guarded_register_unique_C5
    [DirOp.register 1 "doctor" [] 1, DirOp.register 2 "nurse" [] 1] (by rfl) 1

/-! ## Claims C1 and C10: `GetPlusTrustNeighbor` -/

theorem innerScan_argmax (c : String) (dir : List Neighbor) :
    ∀ t n best, scanInv t n best →
      scanInv (innerScan c dir t n).1 (innerScan c dir t n).2
        (argmaxTrust c dir best) := by
  induction dir with
  | nil => intro t n best h; simpa [innerScan, argmaxTrust] using h
  | cons r rest ih =>
    intro t n best h
    by_cases hc : (r.competence == c) = true
    · cases n with
      | some q =>
        obtain ⟨ht, hbest, hpos⟩ := h
        subst hbest
        by_cases hlt : t < r.trust
        · have hq : q.trust < r.trust := ht ▸ hlt
          rw [show innerScan c (r :: rest) t (some q) =
              innerScan c rest r.trust (some r) from by simp [innerScan, hc, hlt],
            show argmaxTrust c (r :: rest) (some q) =
              argmaxTrust c rest (some r) from by simp [argmaxTrust, hc, hq]]
          exact ih r.trust (some r) (some r) ⟨rfl, rfl, lt_trans hpos hlt⟩
        · have hq : ¬(q.trust < r.trust) := by rw [← ht]; exact hlt
          rw [show innerScan c (r :: rest) t (some q) =
              innerScan c rest t (some q) from by simp [innerScan, hc, hlt],
            show argmaxTrust c (r :: rest) (some q) =
              argmaxTrust c rest (some q) from by simp [argmaxTrust, hc, hq]]
          exact ih t (some q) (some q) ⟨ht, rfl, hpos⟩
      | none =>
        obtain ⟨ht, hb⟩ := h
        subst ht
        by_cases hlt : (0 : Rat) < r.trust
        · rw [show innerScan c (r :: rest) 0 none =
              innerScan c rest r.trust (some r) from by simp [innerScan, hc, hlt]]
          have inv2 : scanInv r.trust (some r) (some r) := ⟨rfl, rfl, hlt⟩
          cases best with
          | none =>
            rw [show argmaxTrust c (r :: rest) none =
                argmaxTrust c rest (some r) from by simp [argmaxTrust, hc]]
            exact ih _ _ _ inv2
          | some b =>
            have hblt : b.trust < r.trust := lt_of_le_of_lt (hb b rfl) hlt
            rw [show argmaxTrust c (r :: rest) (some b) =
                argmaxTrust c rest (some r) from by simp [argmaxTrust, hc, hblt]]
            exact ih _ _ _ inv2
        · have hle : r.trust ≤ 0 := le_of_not_lt hlt
          rw [show innerScan c (r :: rest) 0 none =
              innerScan c rest 0 none from by simp [innerScan, hc, hlt]]
          cases best with
          | none =>
            rw [show argmaxTrust c (r :: rest) none =
                argmaxTrust c rest (some r) from by simp [argmaxTrust, hc]]
            refine ih _ _ _ ⟨rfl, ?_⟩
            intro b' hb'
            injection hb' with hb''
            subst hb''
            exact hle
          | some b =>
            by_cases h2 : b.trust < r.trust
            · rw [show argmaxTrust c (r :: rest) (some b) =
                  argmaxTrust c rest (some r) from by simp [argmaxTrust, hc, h2]]
              refine ih _ _ _ ⟨rfl, ?_⟩
              intro b' hb'
              injection hb' with hb''
              subst hb''
              exact hle
            · rw [show argmaxTrust c (r :: rest) (some b) =
                  argmaxTrust c rest (some b) from by simp [argmaxTrust, hc, h2]]
              refine ih _ _ _ ⟨rfl, ?_⟩
              intro b' hb'
              injection hb' with hb''
              subst hb''
              exact hb b rfl
    · rw [show innerScan c (r :: rest) t n = innerScan c rest t n from by
          simp [innerScan, hc],
        show argmaxTrust c (r :: rest) best = argmaxTrust c rest best from by
          simp [argmaxTrust, hc]]
      exact ih t n best h

theorem innerScan_some_isSome (c : String) (dir : List Neighbor) :
    ∀ t q, ((innerScan c dir t (some q)).2).isSome = true := by
  induction dir with
  | nil => intro t q; rfl
  | cons r rest ih =>
    intro t q
    by_cases hc : (r.competence == c) = true
    · by_cases hlt : t < r.trust
      · simpa [innerScan, hc, hlt] using ih r.trust r
      · simpa [innerScan, hc, hlt] using ih t q
    · simpa [innerScan, hc] using ih t q

theorem innerScan_no_qualifying (c : String) (dir : List Neighbor)
    (h : hasQualifying c dir = false) : innerScan c dir 0 none = (0, none) := by
  induction dir with
  | nil => rfl
  | cons r rest ih =>
    simp only [hasQualifying, List.any_cons, Bool.or_eq_false_iff,
      Bool.and_eq_false_iff] at h
    have hrest : hasQualifying c rest = false := h.2
    by_cases hc : (r.competence == c) = true
    · have hnlt : ¬((0 : Rat) < r.trust) := by
        rcases h.1 with h1 | h1
        · exact absurd hc (by simp [h1])
        · simpa using h1
      simpa [innerScan, hc, hnlt] using ih hrest
    · simpa [innerScan, hc] using ih hrest

theorem innerScan_qualifying_isSome (c : String) (dir : List Neighbor)
    (h : hasQualifying c dir = true) :
    ((innerScan c dir 0 none).2).isSome = true := by
  induction dir with
  | nil => simp [hasQualifying] at h
  | cons r rest ih =>
    by_cases hhead : (r.competence == c && decide (0 < r.trust)) = true
    · have hc : (r.competence == c) = true := (Bool.and_eq_true _ _ |>.mp hhead).1
      have hlt : (0 : Rat) < r.trust := by
        have := (Bool.and_eq_true _ _ |>.mp hhead).2
        simpa using this
      simpa [innerScan, hc, hlt] using innerScan_some_isSome c rest r.trust r
    · have hrest : hasQualifying c rest = true := by
        have := h
        simp only [hasQualifying, List.any_cons, Bool.or_eq_true] at this
        rcases this with h1 | h1
        · exact absurd h1 hhead
        · exact h1
      by_cases hc : (r.competence == c) = true
      · have hnlt : ¬((0 : Rat) < r.trust) := by
          intro hcon
          exact hhead (by simp [hc, hcon])
        simpa [innerScan, hc, hnlt] using ih hrest
      · simpa [innerScan, hc] using ih hrest

theorem gptnGo_eq_specBest (dir : List Neighbor) :
    ∀ cs, gptnGo dir cs 0 none = specBest dir cs := by
  intro cs
  induction cs with
  | nil => rfl
  | cons c rest ih =>
    by_cases hq : hasQualifying c dir = true
    · have hsome := innerScan_qualifying_isSome c dir hq
      have hinv := innerScan_argmax c dir 0 none none ⟨rfl, fun b hb => nomatch hb⟩
      have hinv2 := hinv
      obtain ⟨rec, hrec⟩ := Option.isSome_iff_exists.mp hsome
      rw [hrec] at hinv2
      obtain ⟨_, hmax, _⟩ := hinv2
      simp only [gptnGo, hrec, Option.isSome_some, if_true, specBest, hq,
        Option.map_some']
      rw [hmax]
      rfl
    · have hzero := innerScan_no_qualifying c dir (by simpa using hq)
      simp only [gptnGo, hzero, Option.isSome_none, Bool.false_eq_true, if_false,
        specBest, hq, Prod.fst, Prod.snd]
      exact ih

theorem gptnLoop_exits (cs : List String) (dir : List Neighbor)
    (hlen : cs.length ≤ 255) :
    ∀ k i t n, i + k = cs.length →
      ∃ b, gptnLoop cs dir (k + 1) i t n =
        some (b, gptnGo dir (cs.drop i) t n) := by
  intro k
  induction k with
  | zero =>
    intro i t n hi
    have hi' : i = cs.length := by omega
    subst hi'
    exact ⟨true, by simp [gptnLoop, gptnGo, List.drop_length]⟩
  | succ k ih =>
    intro i t n hi
    have hilt : i < cs.length := by omega
    have hne : ¬(i = cs.length) := by omega
    have hgetD : cs.getD i "" = cs[i] := List.getD_eq_getElem cs "" hilt
    have hdrop : cs.drop i = cs[i] :: cs.drop (i + 1) :=
      List.drop_eq_getElem_cons hilt
    have hstep : gptnLoop cs dir (k + 1 + 1) i t n =
        if ((innerScan cs[i] dir t n).2).isSome then
          some (false, ((innerScan cs[i] dir t n).2).map (fun r => r.ip))
        else
          gptnLoop cs dir (k + 1) ((i + 1) % 256)
            (innerScan cs[i] dir t n).1 (innerScan cs[i] dir t n).2 := by
      rw [gptnLoop, if_neg hne, hgetD]
    have hgo : gptnGo dir (cs.drop i) t n =
        if ((innerScan cs[i] dir t n).2).isSome then
          ((innerScan cs[i] dir t n).2).map (fun r => r.ip)
        else gptnGo dir (cs.drop (i + 1))
          (innerScan cs[i] dir t n).1 (innerScan cs[i] dir t n).2 := by
      rw [hdrop, gptnGo]
    by_cases hs : ((innerScan cs[i] dir t n).2).isSome = true
    · exact ⟨false, by rw [hstep, hgo, if_pos hs, if_pos hs]⟩
    · have hmod : (i + 1) % 256 = i + 1 := Nat.mod_eq_of_lt (by omega)
      obtain ⟨b, hb⟩ := ih (i + 1) (innerScan cs[i] dir t n).1
        (innerScan cs[i] dir t n).2 (by omega)
      refine ⟨b, ?_⟩
      rw [hstep, hgo, if_neg hs, if_neg hs, hmod, hb]

theorem specBest_isSome (dir : List Neighbor) :
    ∀ cs, (∃ c ∈ cs, hasQualifying c dir = true) →
      (specBest dir cs).isSome = true := by
  intro cs
  induction cs with
  | nil => rintro ⟨c, hc, _⟩; exact absurd hc (List.not_mem_nil c)
  | cons c rest ih =>
    rintro ⟨c', hc', hq'⟩
    by_cases hq : hasQualifying c dir = true
    · have hsome := innerScan_qualifying_isSome c dir hq
      have hinv := innerScan_argmax c dir 0 none none ⟨rfl, fun b hb => nomatch hb⟩
      have hinv2 := hinv
      obtain ⟨rec, hrec⟩ := Option.isSome_iff_exists.mp hsome
      rw [hrec] at hinv2
      obtain ⟨_, hmax, _⟩ := hinv2
      simp [specBest, hq, hmax]
    · rcases List.mem_cons.mp hc' with rfl | hmem
      · exact absurd hq' hq
      · simpa [specBest, hq] using ih ⟨c', hmem, hq'⟩

/-- C1 (amended): for a competence list of at most 255 labels, whenever some
listed competence has a record with trust strictly greater than 0,
`GetPlusTrustNeighbor` terminates and returns exactly the specified
selection `specBest`: the maximum-trust record (ties to the
earliest-registered, `around` ignored) of the first listed competence that
has a record with positive trust, later labels never being considered. -/
theorem gptn_first_qualifying_tier_C1 (cs : List String) (dir : List Neighbor)
    (hlen : cs.length ≤ 255)
    (hq : ∃ c ∈ cs, hasQualifying c dir = true) :
    GetPlusTrustNeighbor cs dir (cs.length + 1) = some (specBest dir cs) ∧
    (specBest dir cs).isSome = true := by
  obtain ⟨b, hb⟩ := gptnLoop_exits cs dir hlen cs.length 0 0 none (by omega)
  constructor
  · rw [GetPlusTrustNeighbor, hb]
    simp [gptnGo_eq_specBest dir cs]
  · exact specBest_isSome dir cs hq

/-- Witness for the amended C1: the spec's priority-tier example, where the
lower-trust doctor beats the higher-trust nurse. -/
theorem gptn_first_qualifying_tier_C1_witness :
    GetPlusTrustNeighbor ["doctor", "nurse"]
      [⟨1, "nurse", [], 9, true⟩, ⟨2, "doctor", [], 2, true⟩] 3 =
      some (some 2) := by
  have h := gptn_first_qualifying_tier_C1 ["doctor", "nurse"]
    [⟨1, "nurse", [], 9, true⟩, ⟨2, "doctor", [], 2, true⟩]
    (by decide) ⟨"doctor", by simp, by decide⟩
  exact h.1.trans (by decide)

theorem gptnLoop_wrap_stuck :
    ∀ fuel i, i < 256 →
      gptnLoop (List.replicate 256 "x" ++ ["doctor"])
        [⟨1, "doctor", [], 1, true⟩] fuel i 0 none = none := by
  intro fuel
  induction fuel with
  | zero => intro i _; rfl
  | succ f ih =>
    intro i hi
    have hlen : (List.replicate 256 "x" ++ ["doctor"]).length = 257 := by
      rw [List.length_append, List.length_replicate]
      rfl
    have hne : ¬(i = (List.replicate 256 "x" ++ ["doctor"]).length) := by omega
    have hilt : i < (List.replicate 256 "x" ++ ["doctor"]).length := by omega
    have hgetD : (List.replicate 256 "x" ++ ["doctor"]).getD i "" = "x" := by
      rw [List.getD_eq_getElem _ "" hilt,
        List.getElem_append_left (by rw [List.length_replicate]; exact hi)]
      exact List.getElem_replicate ..
    have hscan : innerScan "x" [⟨1, "doctor", [], 1, true⟩] 0 none = (0, none) := by
      decide
    rw [gptnLoop, if_neg hne, hgetD, hscan]
    exact ih ((i + 1) % 256) (Nat.mod_lt _ (by omega))

/-- Counterexample to C1 as stated: with 256 labels before the only
qualifying competence, the `uint8_t` tier counter wraps and the call never
returns, although a listed competence does have a record with positive
trust. -/
theorem gptn_uint8_wrap_C1_counterexample :
    "doctor" ∈ List.replicate 256 "x" ++ ["doctor"] ∧
    hasQualifying "doctor" [⟨1, "doctor", [], 1, true⟩] = true ∧
    gptnNeverReturns (List.replicate 256 "x" ++ ["doctor"])
      [⟨1, "doctor", [], 1, true⟩] := by
  refine ⟨List.mem_append_right _ (List.mem_singleton_self "doctor"),
    by decide, ?_⟩
  intro fuel
  rw [GetPlusTrustNeighbor, gptnLoop_wrap_stuck fuel 0 (by omega)]
  rfl

/-- C10: the tier loop of `GetPlusTrustNeighbor` exits for every competence
list of fewer than 256 labels (fuel `length + 1` suffices); for a list of 256
or more labels the 8-bit counter stays below 256, so the loop never exits by
exhausting the list. -/
theorem gptn_termination_C10 (cs : List String) (dir : List Neighbor) :
    (cs.length < 256 → ∃ r, gptnLoop cs dir (cs.length + 1) 0 0 none = some r) ∧
    (256 ≤ cs.length → ∀ fuel i t n res, i < 256 →
      gptnLoop cs dir fuel i t n ≠ some (true, res)) := by
  constructor
  · intro h
    obtain ⟨b, hb⟩ := gptnLoop_exits cs dir (by omega) cs.length 0 0 none (by omega)
    exact ⟨(b, gptnGo dir (cs.drop 0) 0 none), hb⟩
  · intro h fuel
    induction fuel with
    | zero =>
      intro i t n res _ hc
      simp [gptnLoop] at hc
    | succ f ih =>
      intro i t n res hi
      have hne : ¬(i = cs.length) := by omega
      rw [gptnLoop, if_neg hne]
      by_cases hs : ((innerScan (cs.getD i "") dir t n).2).isSome = true
      · rw [if_pos hs]
        intro hc
        exact Bool.false_ne_true (congrArg (fun p => (p.1 : Bool))
          (Option.some.inj hc))
      · rw [if_neg hs]
        exact ih ((i + 1) % 256) _ _ res (Nat.mod_lt _ (by omega))

/-- Witness for C10: a one-label list exits; on a 256-label list no state with
the counter in range exits by exhaustion. -/
theorem gptn_termination_C10_witness :
    (gptnLoop ["doctor"] [] 2 0 0 none).isSome = true ∧
    gptnLoop (List.replicate 256 "x") [] 5 3 0 none ≠ some (true, none) := by
  constructor
  · obtain ⟨r, hr⟩ := (gptn_termination_C10 ["doctor"] []).1 (by decide)
    rw [show (2 : Nat) = ["doctor"].length + 1 from rfl, hr]
    rfl
  · exact (gptn_termination_C10 (List.replicate 256 "x") []).2
      (by rw [List.length_replicate]) 5 3 0 none none (by omega)

end StealthNode
